import Mathlib

/-!
Verification of the `ocascripts` calibration-lineage tools.

This file shallowly embeds the parts of the repository that the verified
properties talk about:

* `src/ocascripts/fitscollectcalib.py` — the identifier codec
  (`extract_basename`), the location resolver (`find_processed_file_dir`),
  the lineage walker (`find_calibration_files`) and the emitter (`emit`,
  the loop of `process_files`);
* `src/ocascripts/fitscollectjson.py` — the indentation parser
  (`parse_indented_list`);
* `src/ocascripts/ocadb-downloader.py` — the retry loops of
  `get_filename_url` and `get_batch_filename_urls`.

Filesystem paths are lists of path components; directory contents are an
abstract listing function.  The Python walker is genuinely recursive over
directory contents that can reference each other; it is embedded with an
explicit fuel parameter, `fuelOut` marking runs that would have recursed
beyond the given fuel (Python would recurse forever, eventually hitting
the interpreter's recursion limit).  Python `TypeError` crashes (reachable
on unparseable file names) are modelled by `typeError`.
-/

namespace OcaSpec

/-- Abstract read-only filesystem: which directories exist and what file
names each directory contains.  `listing` models `Path.iterdir`-style
content from which `Path.glob` selects; order is the (arbitrary but fixed)
order the filesystem returns. -/
structure FS where
  listing : List String → List String
  isDir : List String → Bool

/-- The argparse flags of `fitscollectcalib.py` that the embedded code
reads (calibration selection and output options). -/
structure Args where
  raw_zero : Bool
  raw_dark : Bool
  raw_flat : Bool
  master_zero : Bool
  master_dark : Bool
  master_flat : Bool
  skip_duplicates : Bool
  names : Bool
  no_indent : Bool
deriving DecidableEq, Repr

/-- One element of the list returned by `find_calibration_files`
(`fitscollectcalib.py`, tuples `(file_path, indent_level, kind,
dedup_basename, dedup_suffix)` appended at lines 135-165). -/
structure CalibEntry where
  path : String
  level : Nat
  kind : String
  dbase : String
  dsuffix : Option String
deriving DecidableEq, Repr

/-- Result of a walker run: a normal return, a Python `TypeError`
(raised on a file name the codec cannot parse, line 130/150), or fuel
exhaustion (the Python recursion would not have terminated within the
given depth). -/
inductive WalkOut where
  | ok (entries : List CalibEntry)
  | typeError
  | fuelOut
deriving DecidableEq, Repr

/-- Join path components the way `str(Path(...))` renders the `/`-built
paths of the source. -/
def pathStr (p : List String) : String := String.intercalate "/" p

/-- Python `str.endswith`, computed on the character lists so the kernel
can evaluate it. -/
def strEndsWith (s p : String) : Bool := p.data.isSuffixOf s.data

/-- Python `str.startswith`, computed on the character lists so the kernel
can evaluate it. -/
def strStartsWith (s p : String) : Bool := p.data.isPrefixOf s.data

/-- Python `\w` on the ASCII names used by the repository: letters,
digits or underscore. -/
def isWordChar (c : Char) : Bool := c.isAlphanum || c = '_'

/-- Take exactly `n` characters all satisfying `p`, returning them and
the rest; `none` if the input is too short or a character fails `p`. -/
def takeExact : Nat → (Char → Bool) → List Char → Option (List Char × List Char)
  | 0, _, l => some ([], l)
  | _ + 1, _, [] => none
  | n + 1, p, c :: l =>
    if p c then (takeExact n p l).map (fun r => (c :: r.1, r.2)) else none

/-- Does the remainder start with `.` followed by `fits` or `fz`?  This is
the `\.(?P<ext>fits|fz)` tail of the `extract_basename` regex; `re.match`
does not anchor the end, so anything may follow the extension. -/
def extTail : List Char → Bool
  | '.' :: t => "fits".data.isPrefixOf t || "fz".data.isPrefixOf t
  | _ => false

/-- `extract_basename` (`fitscollectcalib.py` lines 39-52): match the file
name against `(?P<base>\w{5}.\d{4}_\d{5})(?:_(?P<suff>\w+))?\.(?P<ext>fits|fz)`
with `re.match` (anchored at the start only; the lone `.` after `\w{5}`
matches any character but a newline) and return `(base, suff)`;
`(None, None)` when the pattern does not match. -/
def extract_basename (name : String) : Option String × Option String :=
  match go name.data with
  | some (b, s) => (some b, s)
  | none => (none, none)
where
  go (cs : List Char) : Option (String × Option String) := do
    let (w5, r1) ← takeExact 5 isWordChar cs
    let (sep, r2) ← match r1 with
      | [] => none
      | c :: t => if c = '\n' then none else some (c, t)
    let (d4, r3) ← takeExact 4 Char.isDigit r2
    let r4 ← match r3 with
      | '_' :: t => some t
      | _ => none
    let (d5, r5) ← takeExact 5 Char.isDigit r4
    let base : String := ⟨w5 ++ [sep] ++ d4 ++ '_' :: d5⟩
    match r5 with
    | '_' :: r6 =>
      -- optional group `_(?P<suff>\w+)` present: the greedy `\w+` run must
      -- be non-empty and followed by the extension; if it is not, the
      -- fallback `\.` cannot match the `_`, so the whole match fails
      let suff := r6.takeWhile isWordChar
      if suff ≠ [] ∧ extTail (r6.drop suff.length) then
        some (base, some ⟨suff⟩)
      else none
    | _ => if extTail r5 then some (base, none) else none

/-- `find_processed_file_dir` (`fitscollectcalib.py` lines 70-90): map a
basename and role suffix to the directory that holds the product.  Only
the suffix-less (raw) case checks `is_dir`. -/
def find_processed_file_dir (basename : String) (suffix : Option String)
    (rootPath : List String) (fs : FS) : Option (List String) :=
  match suffix with
  | none =>
    -- no suffix, but it can still refer to a file with a ZDF product:
    -- return the ZDF-style directory only if it exists
    let d := rootPath ++ [basename.take 4, "processed-ofp", "science",
      (basename.drop 6).take 4, basename]
    if fs.isDir d then some d else none
  | some s =>
    if s = "zdf" then
      some (rootPath ++ [basename.take 4, "processed-ofp", "science",
        (basename.drop 6).take 4, basename])
    else if s = "master_z" then
      some (rootPath ++ [basename.take 4, "processed-ofp", "zeros", basename])
    else if s = "master_d" then
      some (rootPath ++ [basename.take 4, "processed-ofp", "darks", basename])
    else if strStartsWith s "master_f_" then
      some (rootPath ++ [basename.take 4, "processed-ofp", "flats", s.drop 9, basename])
    else none

/-- `chain(processed_dir.glob('*.fits'), processed_dir.glob('*.fz'))`
(line 122): all `.fits` names first, then all `.fz` names, in listing
order. -/
def globFits (fs : FS) (d : List String) : List String :=
  (fs.listing d).filter (fun n => strEndsWith n ".fits")
    ++ (fs.listing d).filter (fun n => strEndsWith n ".fz")

/-- Body of the `for f in ...` loop of `find_calibration_files`
(lines 123-167) for one non-skipped file: given the parse `(fb, fsuf)` of
the file name `f`, return the entries appended for this file and the
`(basename, suffix)` of the recursive call when `need_inside` holds.
`none` models the Python `TypeError` raised when `fb` is `None`
(`f_basename[6:10]` at line 130, `basename[:4]` inside the resolver call
at line 150). -/
def childContribution (level : Nat) (b : String) (ps : Option String)
    (fb fsuf : Option String) (rootPath : List String) (fs : FS)
    (args : Args) (f : String) :
    Option (List CalibEntry × Option (String × String)) :=
  match fb, fsuf with
  | none, _ => none
  | some cb, none =>
    -- raw files have no suffix; reconstruct the canonical raw location
    -- from the file's own basename (lines 128-132)
    let night := (cb.drop 6).take 4
    let telescope := cb.take 4
    let canonical := pathStr (rootPath ++ [telescope, "raw", night, cb ++ ".fits"])
    if ps = some "master_z" then
      some ((if args.raw_zero then [⟨canonical, level + 1, "raw_zero", cb, none⟩] else []), none)
    else if ps = some "master_d" then
      some ((if args.raw_dark then [⟨canonical, level + 1, "raw_dark", cb, none⟩] else []), none)
    else if (match ps with
             | some s => s != "" && strStartsWith s "master_f_"
             | none => false) then
      some ((if args.raw_flat then [⟨canonical, level + 1, "raw_flat", cb, none⟩] else []), none)
    else if ps = some "zdf" ∧ cb = b then
      -- expected: symlink to the original raw science file in the science
      -- directory, ignored (line 142-143)
      some ([], none)
    else
      -- `log.warning('Unexpected RAW ...')`: logged and skipped (line 145)
      some ([], none)
  | some cb, some cs =>
    if cs = "master_z" then
      let needInside := args.raw_zero
      let rc := if needInside then some (cb, cs) else none
      if args.master_zero then
        match find_processed_file_dir cb (some cs) rootPath fs with
        | none => none
        | some d => some ([⟨pathStr (d ++ [f]), level + 1, "master_zero", cb, some cs⟩], rc)
      else some ([], rc)
    else if cs = "master_d" then
      let needInside := args.master_zero || args.raw_zero || args.raw_dark
      let rc := if needInside then some (cb, cs) else none
      if args.master_dark then
        match find_processed_file_dir cb (some cs) rootPath fs with
        | none => none
        | some d => some ([⟨pathStr (d ++ [f]), level + 1, "master_dark", cb, some cs⟩], rc)
      else some ([], rc)
    else if strStartsWith cs "master_f_" then
      let needInside := args.master_dark || args.master_zero || args.raw_zero
        || args.raw_dark || args.raw_flat
      let rc := if needInside then some (cb, cs) else none
      if args.master_flat then
        match find_processed_file_dir cb (some cs) rootPath fs with
        | none => none
        | some d => some ([⟨pathStr (d ++ [f]), level + 1, "master_flat", cb, some cs⟩], rc)
      else some ([], rc)
    else some ([], none)

/-- The `for f in chain(...)` loop of `find_calibration_files`
(lines 122-167), abstracted over the recursive call `recurse` (which the
walker instantiates at one fuel level lower).  Files parsing to the same
`(basename, suffix)` pair as the node being expanded are skipped
(line 124); each remaining file appends its own emission first and the
results of its recursion immediately after (lines 151-153 etc.). -/
def walkFiles (recurse : String → String → WalkOut) (level : Nat) (b : String)
    (s : Option String) (rootPath : List String) (fs : FS) (args : Args) :
    List String → WalkOut
  | [] => .ok []
  | f :: rest =>
    let pr := extract_basename f
    if pr.1 = some b ∧ pr.2 = s then
      walkFiles recurse level b s rootPath fs args rest
    else
      match childContribution level b s pr.1 pr.2 rootPath fs args f with
      | none => .typeError
      | some (es, rc) =>
        let sub : WalkOut := match rc with
          | none => .ok []
          | some (cb, cs) => recurse cb cs
        match sub with
        | .ok subEs =>
          match walkFiles recurse level b s rootPath fs args rest with
          | .ok restEs => .ok (es ++ subEs ++ restEs)
          | e => e
        | e => e

/-- `find_calibration_files` (`fitscollectcalib.py` lines 93-169) with an
explicit recursion-depth fuel: each Python stack frame consumes one unit,
`fuelOut` marks runs that would recurse deeper (in particular, runs whose
recursion never bottoms out). -/
def find_calibration_files : Nat → Nat → String → Option String → List String → FS → Args → WalkOut
  | 0, _, _, _, _, _, _ => .fuelOut
  | fuel + 1, level, b, s, rootPath, fs, args =>
    match find_processed_file_dir b s rootPath fs with
    | none => .ok []
    | some d =>
      walkFiles (fun cb cs => find_calibration_files fuel (level + 1) cb (some cs) rootPath fs args)
        level b s rootPath fs args (globFits fs d)

/-!
The emitter of `process_files` (`fitscollectcalib.py` lines 189-235): the
nested `emit` function with its run-scoped `seen` set and duplicate
counter, folded over the walker results of each input file.  Per-kind
statistics other than the duplicate counter are diagnostic only and are
not modelled.
-/

/-- Dedup key of line 198:
`f'{dedup_basename}_{dedup_suffix}' if dedup_suffix else dedup_basename`
(a falsy — `None` or empty — suffix selects the bare basename). -/
def dedupKey (b : String) (s : Option String) : String :=
  match s with
  | some s => if s = "" then b else b ++ "_" ++ s
  | none => b

/-- The emitter state owned by one `process_files` run: the `seen` set of
`--skip-duplicates` (line 189) and the duplicate counter of the `stats`
dictionary (line 200). -/
structure EmitState where
  seen : List String
  dups : Nat
deriving DecidableEq, Repr

/-- `' ' * level`. -/
def spacesOf (n : Nat) : String := ⟨List.replicate n ' '⟩

/-- `Path(path_str).name`: the part after the last `/` (no path in the
repository ends with a slash). -/
def lastComponent (s : String) : String :=
  ⟨(s.data.reverse.takeWhile (fun c => c ≠ '/')).reverse⟩

/-- Number of leading spaces of a rendered line (`len(line) - len(line.lstrip(' '))`
of the JSON stage; also the indent the emitter prints). -/
def countLeadingSpaces (s : String) : Nat :=
  (s.data.takeWhile (fun c => c = ' ')).length

/-- Does the string start with a space?  Used to state that a path
contributes no leading spaces of its own. -/
def headIsSpace (s : String) : Bool :=
  match s.data with
  | c :: _ => c = ' '
  | [] => false

/-- The line printed by `emit` (lines 203-205):
`indent + (name if --names else path)`. -/
def renderLine (args : Args) (path : String) (level : Nat) : String :=
  (if args.no_indent then "" else spacesOf level)
    ++ (if args.names then lastComponent path else path)

/-- `emit` (lines 194-207): suppress and count a duplicate when
`--skip-duplicates` is on and the key was already seen, otherwise print
the rendered line (returned as `some line`) and record the key. -/
def emit (args : Args) (st : EmitState) (e : CalibEntry) : Option String × EmitState :=
  if args.skip_duplicates then
    let key := dedupKey e.dbase e.dsuffix
    if key ∈ st.seen then (none, ⟨st.seen, st.dups + 1⟩)
    else (some (renderLine args e.path e.level), ⟨key :: st.seen, st.dups⟩)
  else (some (renderLine args e.path e.level), st)

/-- The `for calib_path, level, kind, cb, cs in calib_files` loop
(lines 234-235): emit every entry in order, threading the state; each
input is paired with the line it printed (`none` = suppressed). -/
def emitAll (args : Args) (st : EmitState) :
    List CalibEntry → List (CalibEntry × Option String) × EmitState
  | [] => ([], st)
  | e :: rest =>
    let r := emit args st e
    let rr := emitAll args r.2 rest
    ((e, r.1) :: rr.1, rr.2)

/-- The outer `for file_path in file_list` loop (lines 217-235) as far as
emission is concerned: one entry list per root observation (the root's
own `emit` call included as its depth-0 entry), one `EmitState` threaded
through the whole run. -/
def processRoots (args : Args) (st : EmitState) :
    List (List CalibEntry) → List (CalibEntry × Option String) × EmitState
  | [] => ([], st)
  | r :: rs =>
    let o1 := emitAll args st r
    let o2 := processRoots args o1.2 rs
    (o1.1 ++ o2.1, o2.2)

/-!
Specification-side vocabulary: the closed set of calibration kinds, which
kinds the flags request, and the recursion table of spec §4.3.
-/

/-- The calibration product kinds of the dependency DAG (spec §3). -/
inductive CalKind where
  | raw_zero | raw_dark | raw_flat | master_zero | master_dark | master_flat
deriving DecidableEq, Repr

/-- Which flag requests each kind. -/
def requestedFlag (args : Args) : CalKind → Bool
  | .raw_zero => args.raw_zero
  | .raw_dark => args.raw_dark
  | .raw_flat => args.raw_flat
  | .master_zero => args.master_zero
  | .master_dark => args.master_dark
  | .master_flat => args.master_flat

/-- The recursion column of the spec §4.3 table: recurse into a child of
this kind iff one of the kinds reachable below it is requested; raw kinds
are leaves. -/
def recurseFlag (args : Args) : CalKind → Bool
  | .raw_zero => false
  | .raw_dark => false
  | .raw_flat => false
  | .master_zero => args.raw_zero
  | .master_dark => args.master_zero || args.raw_zero || args.raw_dark
  | .master_flat => args.master_dark || args.master_zero || args.raw_zero
      || args.raw_dark || args.raw_flat

/-- The `kind` string the walker stores for each `CalKind`. -/
def kindName : CalKind → String
  | .raw_zero => "raw_zero"
  | .raw_dark => "raw_dark"
  | .raw_flat => "raw_flat"
  | .master_zero => "master_zero"
  | .master_dark => "master_dark"
  | .master_flat => "master_flat"

/-- Kind of a discovered child per spec §4.3: a suffixed child carries its
own role; a suffix-less (raw) child takes its role from the kind of the
directory being expanded, and has none under a science parent. -/
def childKindOf (ps fsuf : Option String) : Option CalKind :=
  match fsuf with
  | some cs =>
    if cs = "master_z" then some .master_zero
    else if cs = "master_d" then some .master_dark
    else if strStartsWith cs "master_f_" then some .master_flat
    else none
  | none =>
    match ps with
    | some s =>
      if s = "master_z" then some .raw_zero
      else if s = "master_d" then some .raw_dark
      else if strStartsWith s "master_f_" then some .raw_flat
      else none
    | none => none

/-- `c` is discovered when expanding `p`: some file of the directory the
resolver assigns to `p` parses to `c`.  One dependency hop of the
traversal. -/
def listedChild (fs : FS) (rootPath : List String)
    (p c : String × Option String) : Prop :=
  ∃ d f, find_processed_file_dir p.1 p.2 rootPath fs = some d ∧
    f ∈ globFits fs d ∧ extract_basename f = (some c.1, c.2)

/-- `ReachIn fs root x z n`: `z` is reachable from `x` in exactly `n`
dependency hops through the listed directories. -/
inductive ReachIn (fs : FS) (rootPath : List String) :
    String × Option String → String × Option String → Nat → Prop
  | refl (x : String × Option String) : ReachIn fs rootPath x x 0
  | step {x y : String × Option String} {n : Nat} (z : String × Option String) :
      ReachIn fs rootPath x y n → listedChild fs rootPath y z →
      ReachIn fs rootPath x z (n + 1)

/-!
The JSON structuring stage: `parse_indented_list` of
`fitscollectjson.py` (lines 90-139).  Path reconstruction (lines 53-87,
exercised only when a storage root was detected and the line is not an
absolute path) is an independent collaborator and is passed in as an
opaque function.
-/

/-- One element of an observation's `files` list
(`fitscollectjson.py` lines 130-133). -/
structure FileEntry where
  name : String
  path : String
deriving DecidableEq, Repr

/-- One reconstructed observation (lines 120-125). -/
structure Obs where
  observation : String
  name : String
  path : String
  files : List FileEntry
deriving DecidableEq, Repr

/-- Index of the last occurrence of `c`. -/
def lastIdxOf (c : Char) : List Char → Option Nat
  | [] => none
  | x :: t =>
    match lastIdxOf c t with
    | some i => some (i + 1)
    | none => if x = c then some 0 else none

/-- `Path(name).stem`: the name without its suffix; a dot at position 0
does not start a suffix. -/
def stemOf (s : String) : String :=
  match lastIdxOf '.' s.data with
  | some i => if 0 < i then ⟨s.data.take i⟩ else s
  | none => s

/-- `line.rstrip('\n')`. -/
def dropTrailingNewlines (s : String) : String :=
  ⟨(s.data.reverse.dropWhile (fun c => c = '\n')).reverse⟩

/-- `line.strip()`. -/
def stripBoth (s : String) : String :=
  ⟨((s.data.dropWhile Char.isWhitespace).reverse.dropWhile Char.isWhitespace).reverse⟩

/-- Mutate `indent_stack[i].append(e)`: append to the list at index `i`
(no-op on an out-of-range index, which the caller has already ruled
out). -/
def appendAt : List (List FileEntry) → Nat → FileEntry → List (List FileEntry)
  | [], _, _ => []
  | l :: ls, 0, e => (l ++ [e]) :: ls
  | l :: ls, n + 1, e => l :: appendAt ls n e

/-- `parse_indented_list` (lines 90-139).  State: the observations built
so far, the open observation (its scalar fields), and `indent_stack`,
whose head is the open observation's `files` list (the Python aliasing of
`indent_stack[0]` and `current_obs['files']`).  `reconstruct` is
`reconstruct_path(..., root_path)` when a root was given, `none`
otherwise. -/
def parse_indented_list (reconstruct : Option (String → String))
    (lines : List String) : List Obs :=
  go lines [] none []
where
  /-- Close the open observation, attaching the files accumulated in the
  head of the stack. -/
  flush (done : List Obs) (cur : Option (String × String × String))
      (stack : List (List FileEntry)) : List Obs :=
    match cur with
    | none => done
    | some (o, n, p) => done ++ [⟨o, n, p, stack.headD []⟩]
  go : List String → List Obs → Option (String × String × String) →
      List (List FileEntry) → List Obs
  | [], done, cur, stack => flush done cur stack
  | l :: rest, done, cur, stack =>
    let line := dropTrailingNewlines l
    if stripBoth line = "" then go rest done cur stack
    else
      let indent := countLeadingSpaces line
      let filePath := stripBoth line
      let fullPath := match reconstruct with
        | some rp => if !strStartsWith filePath "/" then rp (lastComponent filePath) else filePath
        | none => filePath
      let name := lastComponent filePath
      if indent = 0 then
        go rest (flush done cur stack) (some (stemOf name, name, fullPath)) [[]]
      else
        match cur with
        | some _ =>
          if indent ≤ stack.length then
            go rest done cur (appendAt stack (indent - 1) ⟨name, fullPath⟩)
          else go rest done cur stack
        | none => go rest done cur stack

/-!
The remote catalog client's request loops
(`ocadb-downloader.py`): `get_filename_url` (lines 97-114) and
`get_batch_filename_urls` (lines 116-144).  Each iteration issues one
request; the server's answers are a stream indexed by request number,
classified as 200 (`ok`), 401 (`unauthorized`) or anything else (`err`).
`jwt` counts the re-authentications performed (`refresh_jwt` calls);
`retries` is the `max_retries` countdown, an integer because Python
drives it to `-1` before giving up.  `fuelOut` marks runs exceeding the
given number of iterations.
-/

/-- One server answer. -/
inductive Resp where
  | ok | unauthorized | err
deriving DecidableEq, Repr

/-- Outcome of a request loop: a successful return (carrying the jwt in
hand, which the Python functions return), `exit(1)` after exhausting the
retries, or more iterations than the given fuel. -/
inductive LoopOut where
  | success (jwt : Nat) | gaveUp | fuelOut
deriving DecidableEq, Repr

/-- The `while(True)` loop of `get_filename_url` (lines 103-114):
200 returns, 401 re-authenticates and retries, anything else decrements
`max_retries` and gives up once it drops below zero. -/
def get_filename_url_loop (responses : Nat → Resp) :
    Nat → Nat → Nat → Int → LoopOut
  | 0, _, _, _ => .fuelOut
  | fuel + 1, i, jwt, retries =>
    match responses i with
    | .ok => .success jwt
    | .unauthorized => get_filename_url_loop responses fuel (i + 1) (jwt + 1) retries
    | .err =>
      let r := retries - 1
      if r < 0 then .gaveUp
      else get_filename_url_loop responses fuel (i + 1) jwt r

/-- The `while (True)` loop of `get_batch_filename_urls` (lines 127-144):
identical control flow to `get_filename_url_loop` (the loops differ only
in the request issued and the payload returned). -/
def get_batch_filename_urls_loop (responses : Nat → Resp) :
    Nat → Nat → Nat → Int → LoopOut
  | 0, _, _, _ => .fuelOut
  | fuel + 1, i, jwt, retries =>
    match responses i with
    | .ok => .success jwt
    | .unauthorized => get_batch_filename_urls_loop responses fuel (i + 1) (jwt + 1) retries
    | .err =>
      let r := retries - 1
      if r < 0 then .gaveUp
      else get_batch_filename_urls_loop responses fuel (i + 1) jwt r

/-!
A fixed synthetic directory tree with one science file whose calibration
chain is `zdf → master_flat → master_dark → master_zero → raw_zero`
(spec §8).  Each product directory also holds the product file itself, as
on the real storage layout.
-/

/-- Storage root of the synthetic tree. -/
def rootW : List String := ["/data/fits"]

/-- Science directory of the synthetic chain. -/
def dSci : List String := rootW ++ ["zb08", "processed-ofp", "science", "0571", "zb08c_0571_00001"]

/-- Master-flat directory of the synthetic chain. -/
def dFlat : List String := rootW ++ ["zb08", "processed-ofp", "flats", "V", "zb08c_0560_00002"]

/-- Master-dark directory of the synthetic chain. -/
def dDark : List String := rootW ++ ["zb08", "processed-ofp", "darks", "zb08c_0560_00003"]

/-- Master-zero directory of the synthetic chain. -/
def dZero : List String := rootW ++ ["zb08", "processed-ofp", "zeros", "zb08c_0560_00004"]

/-- The synthetic filesystem: one chain, each directory listing its own
product plus the next product of the chain. -/
def fsChain : FS where
  listing d :=
    if d = dSci then
      ["zb08c_0571_00001_zdf.fits", "zb08c_0571_00001.fits", "zb08c_0560_00002_master_f_V.fits"]
    else if d = dFlat then
      ["zb08c_0560_00002_master_f_V.fits", "zb08c_0560_00003_master_d.fits"]
    else if d = dDark then
      ["zb08c_0560_00003_master_d.fits", "zb08c_0560_00004_master_z.fits"]
    else if d = dZero then
      ["zb08c_0560_00004_master_z.fits", "zb08c_0559_00005.fits"]
    else []
  isDir _ := false

/-- All calibration-selection flags off. -/
def argsNone : Args :=
  ⟨false, false, false, false, false, false, false, false, false⟩

/-- Request `{master_zero}` only. -/
def argsOnlyMZ : Args := { argsNone with master_zero := true }

/-- Request `{raw_zero}` only. -/
def argsOnlyRZ : Args := { argsNone with raw_zero := true }

/-- The single node emitted on the synthetic chain when only
`--master-zero` is requested. -/
def mzEntry : CalibEntry :=
  ⟨"/data/fits/zb08/processed-ofp/zeros/zb08c_0560_00004/zb08c_0560_00004_master_z.fits",
    3, "master_zero", "zb08c_0560_00004", some "master_z"⟩

/-- The single node emitted on the synthetic chain when only
`--raw-zero` is requested. -/
def rzEntry : CalibEntry :=
  ⟨"/data/fits/zb08/raw/0559/zb08c_0559_00005.fits",
    4, "raw_zero", "zb08c_0559_00005", none⟩

/-- C2: on the synthetic tree whose one science file has the chain
zdf → master_flat → master_dark → master_zero → raw_zero, requesting only
`master_zero` makes the walker return exactly one node, at depth 3
(master_flat and master_dark are traversed through but contribute no
node), and requesting only `raw_zero` returns exactly one node, at
depth 4 — at every recursion-depth budget of at least 4. -/
theorem C2_single_chain_depths (k : Nat) :
    find_calibration_files (k + 4) 0 "zb08c_0571_00001" (some "zdf") rootW fsChain argsOnlyMZ =
      .ok [mzEntry]
    ∧ find_calibration_files (k + 4) 0 "zb08c_0571_00001" (some "zdf") rootW fsChain argsOnlyRZ =
      .ok [rzEntry] :=
  ⟨rfl, rfl⟩

/-- C8: the identifier parse of `extract_basename` accepts
`zb08cX0571_24540.fits`, whose separator between the instrument character
and the night digits is `X`, not an underscore (the regex has `.` where
the canonical pattern has `_`), and also accepts a name with trailing
garbage after the extension (`re.match` does not anchor the end) — both
contradicting the claim that exactly the canonical pattern parses. -/
theorem C8_malformed_names_accepted :
    extract_basename "zb08cX0571_24540.fits" = (some "zb08cX0571_24540", none)
    ∧ extract_basename "zb08c_0571_24540.fitsgarbage" = (some "zb08c_0571_24540", none) :=
  ⟨by decide, by decide⟩

/-- C7: on a listing with nodes at depths 1, 2 and 3 under one
observation (exactly what the emitter produces for `--master-calib` on
the synthetic chain), `parse_indented_list` keeps only the depth-1 file:
`indent_stack` never grows beyond the root `files` list and file entries
carry no sub-list, so the depth-2 and depth-3 lines are dropped and no
nesting is built — the listed tree is not reconstructed. -/
theorem C7_deep_lines_dropped :
    parse_indented_list none
      ["zb08c_0571_00001_zdf.fits",
       " zb08c_0560_00002_master_f_V.fits",
       "  zb08c_0560_00003_master_d.fits",
       "   zb08c_0560_00004_master_z.fits"] =
      [⟨"zb08c_0571_00001_zdf", "zb08c_0571_00001_zdf.fits", "zb08c_0571_00001_zdf.fits",
        [⟨"zb08c_0560_00002_master_f_V.fits", "zb08c_0560_00002_master_f_V.fits"⟩]⟩] := by
  decide

/-- C10: a suffix-less input resolves the same science directory as the
`zdf` suffix would, but gated on that directory existing (while the `zdf`
resolution never consults the filesystem); when the directory does not
exist, the whole traversal of that input returns the empty sequence. -/
theorem C10_raw_input_existence_gate (b : String) (rootPath : List String) (fs : FS)
    (d : List String) (fuel level : Nat) (args : Args)
    (h : find_processed_file_dir b (some "zdf") rootPath fs = some d) :
    find_processed_file_dir b none rootPath fs = (if fs.isDir d then some d else none)
    ∧ (∀ fs2 : FS, find_processed_file_dir b (some "zdf") rootPath fs2 = some d)
    ∧ (fs.isDir d = false →
        find_calibration_files (fuel + 1) level b none rootPath fs args = .ok []) := by
  have h2 : find_processed_file_dir b (some "zdf") rootPath fs =
      some (rootPath ++ [b.take 4, "processed-ofp", "science", (b.drop 6).take 4, b]) := rfl
  rw [h2] at h
  injection h with h
  subst h
  refine ⟨rfl, fun fs2 => rfl, fun hdir => ?_⟩
  have h3 : find_processed_file_dir b none rootPath fs = none := by
    simp only [find_processed_file_dir]
    rw [hdir]
    rfl
  simp only [find_calibration_files, h3]

/-- C10 witness: on a filesystem where the science directory does not
exist, a suffix-less input yields no calibration nodes. -/
theorem C10_witness :
    find_calibration_files 1 0 "zb08c_0571_00001" none rootW fsChain argsOnlyMZ = .ok [] :=
  (C10_raw_input_existence_gate "zb08c_0571_00001" rootW fsChain dSci 0 0 argsOnlyMZ
    (by decide)).2.2 (by decide)

/-- C6: every node a suffix-less (raw) child contributes is emitted with
the canonical raw storage path `{root}/{telescope}/raw/{night}/{basename}.fits`,
with the telescope and night taken from the child's own basename; the
contribution does not depend on the listed entry name, i.e. never uses
the path of the entry inside the processed directory. -/
theorem C6_raw_canonical_path (level : Nat) (b : String) (ps : Option String)
    (cb : String) (rootPath : List String) (fs : FS) (args : Args) (f f2 : String)
    (es : List CalibEntry) (rc : Option (String × String))
    (h : childContribution level b ps (some cb) none rootPath fs args f = some (es, rc)) :
    (∀ e ∈ es,
      e.path = pathStr (rootPath ++ [cb.take 4, "raw", (cb.drop 6).take 4, cb ++ ".fits"]))
    ∧ childContribution level b ps (some cb) none rootPath fs args f2 = some (es, rc) := by
  simp only [childContribution] at h ⊢
  split_ifs at h ⊢ <;>
    · simp only [Option.some.injEq, Prod.mk.injEq] at h
      obtain ⟨h1, h2⟩ := h
      subst h1
      subst h2
      refine ⟨fun e he => ?_, rfl⟩
      first
      | (simp only [List.mem_singleton] at he; subst he; rfl)
      | simp at he

/-- C6 witness: the raw zero of the synthetic chain, found inside the
master-zero directory, is reported at the canonical raw location whatever
the listed entry name was. -/
theorem C6_witness :
    (∀ e ∈ [rzEntry],
      e.path = pathStr (rootW ++ ["zb08", "raw", "0559", "zb08c_0559_00005.fits"]))
    ∧ childContribution 3 "zb08c_0560_00004" (some "master_z") (some "zb08c_0559_00005") none
        rootW fsChain argsOnlyRZ "some_other_listed_name.fits" = some ([rzEntry], none) :=
  C6_raw_canonical_path 3 "zb08c_0560_00004" (some "master_z") "zb08c_0559_00005" rootW fsChain
    argsOnlyRZ "zb08c_0559_00005.fits" "some_other_listed_name.fits" [rzEntry] none (by decide)

/-- A server that answers 401 to every request. -/
def all401 : Nat → Resp := fun _ => .unauthorized

/-- Termination of the `get_filename_url` request loop from a given
state: some iteration budget makes it return or give up. -/
def filenameLoopTerminates (responses : Nat → Resp) (i jwt : Nat) (retries : Int) : Prop :=
  ∃ fuel, get_filename_url_loop responses fuel i jwt retries ≠ .fuelOut

lemma all401_no_exit : ∀ (fuel i jwt : Nat) (retries : Int),
    get_filename_url_loop all401 fuel i jwt retries = .fuelOut := by
  intro fuel
  induction fuel with
  | zero => intro i jwt r; rfl
  | succ n ih =>
    intro i jwt r
    simp only [get_filename_url_loop, all401]
    exact ih (i + 1) (jwt + 1) r

/-- C9 counterexample: against a server that answers 401 forever, the
URL-request loop of `get_filename_url` never terminates — the retry
bound does not apply to 401 responses. -/
theorem C9_counterexample_all401_diverges :
    ¬ filenameLoopTerminates all401 0 0 3 := by
  rintro ⟨fuel, hfuel⟩
  exact hfuel (all401_no_exit fuel 0 0 3)

lemma filename_loop_ok_terminates :
    ∀ (n : Nat) (responses : Nat → Resp) (i jwt : Nat) (retries : Int),
      responses (i + n) = .ok →
      get_filename_url_loop responses (n + 1) i jwt retries ≠ .fuelOut := by
  intro n
  induction n with
  | zero =>
    intro responses i jwt r h
    rw [Nat.add_zero] at h
    simp only [get_filename_url_loop, h]
    simp
  | succ m ih =>
    intro responses i jwt r h
    have hsh : i + 1 + m = i + (m + 1) := by omega
    simp only [get_filename_url_loop]
    cases hri : responses i with
    | ok => simp
    | unauthorized =>
      exact ih responses (i + 1) (jwt + 1) r (by rw [hsh]; exact h)
    | err =>
      by_cases hr : r - 1 < 0
      · simp [hr]
      · simp only [if_neg hr]
        exact ih responses (i + 1) jwt (r - 1) (by rw [hsh]; exact h)

lemma batch_loop_ok_terminates :
    ∀ (n : Nat) (responses : Nat → Resp) (i jwt : Nat) (retries : Int),
      responses (i + n) = .ok →
      get_batch_filename_urls_loop responses (n + 1) i jwt retries ≠ .fuelOut := by
  intro n
  induction n with
  | zero =>
    intro responses i jwt r h
    rw [Nat.add_zero] at h
    simp only [get_batch_filename_urls_loop, h]
    simp
  | succ m ih =>
    intro responses i jwt r h
    have hsh : i + 1 + m = i + (m + 1) := by omega
    simp only [get_batch_filename_urls_loop]
    cases hri : responses i with
    | ok => simp
    | unauthorized =>
      exact ih responses (i + 1) (jwt + 1) r (by rw [hsh]; exact h)
    | err =>
      by_cases hr : r - 1 < 0
      · simp [hr]
      · simp only [if_neg hr]
        exact ih responses (i + 1) jwt (r - 1) (by rw [hsh]; exact h)

/-- C9 (amended): in both URL-request loops a 401 answer triggers a
transparent re-authentication and an immediate retry that leaves the
retry budget untouched; only answers other than 200 and 401 consume the
budget, giving up once it drops below zero; and each loop terminates
whenever the server eventually answers 200.  (The budget does not bound
401 retries, so a server answering 401 forever makes the loops run
forever — the counterexample.) -/
theorem C9_amended_retry_semantics :
    (∀ (responses : Nat → Resp) (fuel i jwt : Nat) (retries : Int),
      responses i = .unauthorized →
      get_filename_url_loop responses (fuel + 1) i jwt retries =
        get_filename_url_loop responses fuel (i + 1) (jwt + 1) retries)
    ∧ (∀ (responses : Nat → Resp) (fuel i jwt : Nat) (retries : Int),
      responses i = .err → retries - 1 < 0 →
      get_filename_url_loop responses (fuel + 1) i jwt retries = .gaveUp)
    ∧ (∀ (responses : Nat → Resp) (n i jwt : Nat) (retries : Int),
      responses (i + n) = .ok →
      get_filename_url_loop responses (n + 1) i jwt retries ≠ .fuelOut)
    ∧ (∀ (responses : Nat → Resp) (fuel i jwt : Nat) (retries : Int),
      responses i = .unauthorized →
      get_batch_filename_urls_loop responses (fuel + 1) i jwt retries =
        get_batch_filename_urls_loop responses fuel (i + 1) (jwt + 1) retries)
    ∧ (∀ (responses : Nat → Resp) (fuel i jwt : Nat) (retries : Int),
      responses i = .err → retries - 1 < 0 →
      get_batch_filename_urls_loop responses (fuel + 1) i jwt retries = .gaveUp)
    ∧ (∀ (responses : Nat → Resp) (n i jwt : Nat) (retries : Int),
      responses (i + n) = .ok →
      get_batch_filename_urls_loop responses (n + 1) i jwt retries ≠ .fuelOut) := by
  refine ⟨?_, ?_, ?_, ?_, ?_, ?_⟩
  · intro responses fuel i jwt r h
    simp only [get_filename_url_loop, h]
  · intro responses fuel i jwt r h hr
    simp only [get_filename_url_loop, h]
    simp [hr]
  · intro responses n i jwt r h
    exact filename_loop_ok_terminates n responses i jwt r h
  · intro responses fuel i jwt r h
    simp only [get_batch_filename_urls_loop, h]
  · intro responses fuel i jwt r h hr
    simp only [get_batch_filename_urls_loop, h]
    simp [hr]
  · intro responses n i jwt r h
    exact batch_loop_ok_terminates n responses i jwt r h

/-- C9 witness: concrete instances of the amended retry semantics. -/
theorem C9_amended_witness :
    get_filename_url_loop (fun _ => .unauthorized) 1 0 0 3 =
      get_filename_url_loop (fun _ => .unauthorized) 0 1 1 3
    ∧ get_filename_url_loop (fun _ => .ok) 1 0 0 3 ≠ .fuelOut
    ∧ get_batch_filename_urls_loop (fun _ => .err) 1 0 0 (-1) = .gaveUp :=
  ⟨C9_amended_retry_semantics.1 _ 0 0 0 3 rfl,
   C9_amended_retry_semantics.2.2.1 _ 0 0 0 3 rfl,
   C9_amended_retry_semantics.2.2.2.2.1 _ 0 0 0 (-1) rfl (by decide)⟩

/-- The entries of an emitter output that were actually printed. -/
def emittedEntries (out : List (CalibEntry × Option String)) : List CalibEntry :=
  out.filterMap (fun p => match p.2 with | some _ => some p.1 | none => none)

/-- The number of suppressed entries of an emitter output. -/
def suppressedCount (out : List (CalibEntry × Option String)) : Nat :=
  (out.filter (fun p => p.2.isNone)).length

lemma suppressedCount_cons_none (e : CalibEntry) (out : List (CalibEntry × Option String)) :
    suppressedCount ((e, none) :: out) = suppressedCount out + 1 := rfl

lemma suppressedCount_cons_some (e : CalibEntry) (l : String)
    (out : List (CalibEntry × Option String)) :
    suppressedCount ((e, some l) :: out) = suppressedCount out := rfl

lemma emit_seen_mono (args : Args) (st : EmitState) (e : CalibEntry) (k : String)
    (hk : k ∈ st.seen) : k ∈ (emit args st e).2.seen := by
  unfold emit
  by_cases h1 : args.skip_duplicates <;>
    by_cases h2 : dedupKey e.dbase e.dsuffix ∈ st.seen <;>
      simp [h1, h2, hk]

lemma emitAll_seen_mono (args : Args) :
    ∀ (es : List CalibEntry) (st : EmitState) (k : String),
      k ∈ st.seen → k ∈ (emitAll args st es).2.seen := by
  intro es
  induction es with
  | nil => intro st k hk; exact hk
  | cons e rest ih =>
    intro st k hk
    simp only [emitAll]
    exact ih (emit args st e).2 k (emit_seen_mono args st e k hk)

lemma emitAll_dedup_invariant (args : Args) (hskip : args.skip_duplicates = true) :
    ∀ (es : List CalibEntry) (st : EmitState),
      (∀ x ∈ emittedEntries (emitAll args st es).1,
          dedupKey x.dbase x.dsuffix ∉ st.seen ∧
          dedupKey x.dbase x.dsuffix ∈ (emitAll args st es).2.seen)
      ∧ (emittedEntries (emitAll args st es).1).Pairwise
          (fun a b => ¬(a.dbase = b.dbase ∧ a.dsuffix = b.dsuffix))
      ∧ (∀ p ∈ (emitAll args st es).1, dedupKey p.1.dbase p.1.dsuffix ∈ st.seen → p.2 = none)
      ∧ (emitAll args st es).2.dups = st.dups + suppressedCount (emitAll args st es).1 := by
  intro es
  induction es with
  | nil =>
    intro st
    exact ⟨by simp [emitAll, emittedEntries], List.Pairwise.nil,
      by simp [emitAll], by simp [emitAll, suppressedCount]⟩
  | cons e rest ih =>
    intro st
    by_cases hk : dedupKey e.dbase e.dsuffix ∈ st.seen
    · have he : emit args st e = (none, ⟨st.seen, st.dups + 1⟩) := by
        unfold emit; simp [hskip, hk]
      obtain ⟨ih1, ih2, ih3, ih4⟩ := ih ⟨st.seen, st.dups + 1⟩
      simp only [emitAll, he]
      refine ⟨fun x hx => ih1 x hx, ih2, ?_, ?_⟩
      · intro p hp hpk
        rcases List.mem_cons.mp hp with hp | hp
        · rw [hp]
        · exact ih3 p hp hpk
      · have hd : (⟨st.seen, st.dups + 1⟩ : EmitState).dups = st.dups + 1 := rfl
        rw [hd] at ih4
        rw [ih4, suppressedCount_cons_none]
        omega
    · have he : emit args st e =
          (some (renderLine args e.path e.level),
            ⟨dedupKey e.dbase e.dsuffix :: st.seen, st.dups⟩) := by
        unfold emit; simp [hskip, hk]
      obtain ⟨ih1, ih2, ih3, ih4⟩ := ih ⟨dedupKey e.dbase e.dsuffix :: st.seen, st.dups⟩
      simp only [emitAll, he]
      have hcons : emittedEntries ((e, some (renderLine args e.path e.level)) ::
          (emitAll args ⟨dedupKey e.dbase e.dsuffix :: st.seen, st.dups⟩ rest).1) =
          e :: emittedEntries
            (emitAll args ⟨dedupKey e.dbase e.dsuffix :: st.seen, st.dups⟩ rest).1 := rfl
      refine ⟨?_, ?_, ?_, ?_⟩
      · rw [hcons]
        intro x hx
        rcases List.mem_cons.mp hx with hx | hx
        · subst hx
          exact ⟨hk, emitAll_seen_mono args rest _ _ (List.mem_cons_self _ _)⟩
        · obtain ⟨h1, h2⟩ := ih1 x hx
          exact ⟨fun hmem => h1 (List.mem_cons_of_mem _ hmem), h2⟩
      · rw [hcons]
        refine List.pairwise_cons.mpr ⟨?_, ih2⟩
        intro x hx hpair
        obtain ⟨h1, _⟩ := ih1 x hx
        apply h1
        have hkey : dedupKey x.dbase x.dsuffix = dedupKey e.dbase e.dsuffix := by
          rw [← hpair.1, ← hpair.2]
        rw [hkey]
        exact List.mem_cons_self _ _
      · intro p hp hpk
        rcases List.mem_cons.mp hp with hp | hp
        · exfalso
          rw [hp] at hpk
          exact hk hpk
        · exact ih3 p hp (List.mem_cons_of_mem _ hpk)
      · rw [ih4, suppressedCount_cons_some]

lemma emitAll_nodedup (args : Args) (hskip : args.skip_duplicates = false) :
    ∀ (es : List CalibEntry) (st : EmitState),
      emitAll args st es = (es.map (fun e => (e, some (renderLine args e.path e.level))), st) := by
  intro es
  induction es with
  | nil => intro st; rfl
  | cons e rest ih =>
    intro st
    have he : emit args st e = (some (renderLine args e.path e.level), st) := by
      unfold emit; simp [hskip]
    simp only [emitAll, he, ih st, List.map_cons]

lemma emitAll_append (args : Args) :
    ∀ (l1 l2 : List CalibEntry) (st : EmitState),
      emitAll args st (l1 ++ l2) =
        ((emitAll args st l1).1 ++ (emitAll args (emitAll args st l1).2 l2).1,
          (emitAll args (emitAll args st l1).2 l2).2) := by
  intro l1
  induction l1 with
  | nil => intro l2 st; simp [emitAll]
  | cons e rest ih =>
    intro l2 st
    rw [List.cons_append]
    simp only [emitAll, List.append_eq, ih]
    rfl

lemma processRoots_eq_flatten (args : Args) :
    ∀ (rs : List (List CalibEntry)) (st : EmitState),
      processRoots args st rs = emitAll args st rs.flatten := by
  intro rs
  induction rs with
  | nil => intro st; simp [processRoots, emitAll]
  | cons r rest ih =>
    intro st
    simp only [processRoots, List.flatten_cons, emitAll_append, ih]

/-- C4: with `--skip-duplicates` the emitter threads one `seen` set of
`(basename, suffix-or-none)` keys through the whole run (emitting root
after root is the same as emitting the concatenation of all roots' node
lists): no two printed entries share a `(basename, suffix)` pair, an
entry whose key is already in the set is suppressed, and every
suppression is counted as a duplicate; with deduplication off, every
entry is printed once per occurrence. -/
theorem C4_process_wide_dedup (args : Args) (st : EmitState) (es : List CalibEntry)
    (out : List (CalibEntry × Option String)) (st2 : EmitState)
    (h : emitAll args st es = (out, st2)) :
    (args.skip_duplicates = true →
      (emittedEntries out).Pairwise (fun a b => ¬(a.dbase = b.dbase ∧ a.dsuffix = b.dsuffix))
      ∧ (∀ p ∈ out, dedupKey p.1.dbase p.1.dsuffix ∈ st.seen → p.2 = none)
      ∧ st2.dups = st.dups + suppressedCount out)
    ∧ (args.skip_duplicates = false →
      out = es.map (fun e => (e, some (renderLine args e.path e.level))) ∧ st2 = st)
    ∧ (∀ rs : List (List CalibEntry), processRoots args st rs = emitAll args st rs.flatten) := by
  refine ⟨?_, ?_, fun rs => processRoots_eq_flatten args rs st⟩
  · intro hskip
    obtain ⟨_, h2, h3, h4⟩ := emitAll_dedup_invariant args hskip es st
    rw [h] at h2 h3 h4
    exact ⟨h2, h3, h4⟩
  · intro hskip
    have hq := emitAll_nodedup args hskip es st
    rw [h] at hq
    exact ⟨congrArg Prod.fst hq, congrArg Prod.snd hq⟩

/-- Deduplication switched on, everything else off. -/
def argsDedup : Args := { argsNone with skip_duplicates := true }

/-- The same master zero reached through one chain at depth 2... -/
def dupEntry1 : CalibEntry :=
  ⟨"/data/fits/zb08/processed-ofp/zeros/zb08c_0560_00004/zb08c_0560_00004_master_z.fits",
    2, "master_zero", "zb08c_0560_00004", some "master_z"⟩

/-- ... and through a second chain at depth 3: same dedup key. -/
def dupEntry2 : CalibEntry :=
  ⟨"/data/fits/zb08/processed-ofp/zeros/zb08c_0560_00004/zb08c_0560_00004_master_z.fits",
    3, "master_zero", "zb08c_0560_00004", some "master_z"⟩

/-- C4 witness: two chains ending in the same master zero, deduplication
on — the printed entries stay pairwise distinct and the suppression is
counted. -/
theorem C4_witness :
    (emittedEntries (emitAll argsDedup ⟨[], 0⟩ [dupEntry1, dupEntry2]).1).Pairwise
      (fun a b => ¬(a.dbase = b.dbase ∧ a.dsuffix = b.dsuffix))
    ∧ (emitAll argsDedup ⟨[], 0⟩ [dupEntry1, dupEntry2]).2.dups =
        (⟨[], 0⟩ : EmitState).dups +
          suppressedCount (emitAll argsDedup ⟨[], 0⟩ [dupEntry1, dupEntry2]).1 := by
  have h := C4_process_wide_dedup argsDedup ⟨[], 0⟩ [dupEntry1, dupEntry2]
    (emitAll argsDedup ⟨[], 0⟩ [dupEntry1, dupEntry2]).1
    (emitAll argsDedup ⟨[], 0⟩ [dupEntry1, dupEntry2]).2 rfl
  exact ⟨(h.1 rfl).1, (h.1 rfl).2.2⟩

/-!
Adversarial storage content: two master-zero directories whose listings
reference each other's master product.  Requesting `raw_zero` makes the
walker recurse from each into the other forever.
-/

/-- First mutually-referencing master zero. -/
def bCycA : String := "zb08c_0551_00021"

/-- Second mutually-referencing master zero. -/
def bCycB : String := "zb08c_0552_00022"

/-- Zeros directory of `bCycA`. -/
def dCycA : List String := rootW ++ ["zb08", "processed-ofp", "zeros", bCycA]

/-- Zeros directory of `bCycB`. -/
def dCycB : List String := rootW ++ ["zb08", "processed-ofp", "zeros", bCycB]

/-- The adversarial filesystem: each zeros directory lists the other
master zero. -/
def fsCyc : FS where
  listing d :=
    if d = dCycA then ["zb08c_0552_00022_master_z.fits"]
    else if d = dCycB then ["zb08c_0551_00021_master_z.fits"]
    else []
  isDir _ := false

lemma cyc_no_return : ∀ (fuel level : Nat),
    find_calibration_files fuel level bCycA (some "master_z") rootW fsCyc argsOnlyRZ = .fuelOut
    ∧ find_calibration_files fuel level bCycB (some "master_z") rootW fsCyc argsOnlyRZ = .fuelOut := by
  intro fuel
  induction fuel with
  | zero => intro level; exact ⟨rfl, rfl⟩
  | succ n ih =>
    intro level
    constructor
    · have hres : find_processed_file_dir bCycA (some "master_z") rootW fsCyc = some dCycA := by
        decide
      have hglob : globFits fsCyc dCycA = ["zb08c_0552_00022_master_z.fits"] := by decide
      have hskipc : ¬((extract_basename "zb08c_0552_00022_master_z.fits").1 = some bCycA ∧
          (extract_basename "zb08c_0552_00022_master_z.fits").2 = some "master_z") := by decide
      have hcc : childContribution level bCycA (some "master_z")
          (extract_basename "zb08c_0552_00022_master_z.fits").1
          (extract_basename "zb08c_0552_00022_master_z.fits").2
          rootW fsCyc argsOnlyRZ "zb08c_0552_00022_master_z.fits" =
          some ([], some (bCycB, "master_z")) := rfl
      simp only [find_calibration_files, hres, hglob, walkFiles]
      rw [if_neg hskipc]
      simp only [hcc, (ih (level + 1)).2]
    · have hres : find_processed_file_dir bCycB (some "master_z") rootW fsCyc = some dCycB := by
        decide
      have hglob : globFits fsCyc dCycB = ["zb08c_0551_00021_master_z.fits"] := by decide
      have hskipc : ¬((extract_basename "zb08c_0551_00021_master_z.fits").1 = some bCycB ∧
          (extract_basename "zb08c_0551_00021_master_z.fits").2 = some "master_z") := by decide
      have hcc : childContribution level bCycB (some "master_z")
          (extract_basename "zb08c_0551_00021_master_z.fits").1
          (extract_basename "zb08c_0551_00021_master_z.fits").2
          rootW fsCyc argsOnlyRZ "zb08c_0551_00021_master_z.fits" =
          some ([], some (bCycA, "master_z")) := rfl
      simp only [find_calibration_files, hres, hglob, walkFiles]
      rw [if_neg hskipc]
      simp only [hcc, (ih (level + 1)).1]

/-- The walker terminates normally on this node: some recursion budget
makes it return a (finite) entry list. -/
def walkReturns (level : Nat) (b : String) (s : Option String) (rootPath : List String)
    (fs : FS) (args : Args) : Prop :=
  ∃ fuel es, find_calibration_files fuel level b s rootPath fs args = .ok es

/-- C3 counterexample: on the finite adversarial tree whose two
master-zero directories reference each other's master product, the
recursive walk never returns, at any recursion depth — the code has no
depth cap or cycle detection. -/
theorem C3_counterexample_mutual_reference :
    ¬ walkReturns 0 bCycA (some "master_z") rootW fsCyc argsOnlyRZ := by
  rintro ⟨fuel, es, h⟩
  rw [(cyc_no_return fuel 0).1] at h
  simp at h

lemma childContribution_rc (level : Nat) (b : String) (ps fb fsuf : Option String)
    (rootPath : List String) (fs : FS) (args : Args) (f : String)
    (es : List CalibEntry) (cb cs : String)
    (h : childContribution level b ps fb fsuf rootPath fs args f = some (es, some (cb, cs))) :
    fb = some cb ∧ fsuf = some cs := by
  cases fb with
  | none => simp [childContribution] at h
  | some cb2 =>
    cases fsuf with
    | none =>
      simp only [childContribution] at h
      split_ifs at h <;>
        · simp only [Option.some.injEq, Prod.mk.injEq] at h
          exact absurd h.2 (by simp)
    | some cs2 =>
      simp only [childContribution] at h
      split_ifs at h <;> (try split at h) <;> simp_all

lemma walkFiles_no_fuelOut (recurse : String → String → WalkOut) (level : Nat) (b : String)
    (s : Option String) (rootPath : List String) (fs : FS) (args : Args) :
    ∀ files : List String,
      (∀ f ∈ files, ∀ cb cs : String,
        extract_basename f = (some cb, some cs) →
        ¬(cb = b ∧ (some cs : Option String) = s) → recurse cb cs ≠ .fuelOut) →
      walkFiles recurse level b s rootPath fs args files ≠ .fuelOut := by
  intro files
  induction files with
  | nil => intro _; simp [walkFiles]
  | cons f rest ih =>
    intro hrec
    have ihrest := ih (fun g hg => hrec g (List.mem_cons_of_mem _ hg))
    simp only [walkFiles]
    by_cases hskip : (extract_basename f).1 = some b ∧ (extract_basename f).2 = s
    · rw [if_pos hskip]
      exact ihrest
    · rw [if_neg hskip]
      cases hcc : childContribution level b s (extract_basename f).1 (extract_basename f).2
          rootPath fs args f with
      | none => simp [hcc]
      | some pr =>
        obtain ⟨es, rc⟩ := pr
        cases hrc : rc with
        | none =>
          cases hw : walkFiles recurse level b s rootPath fs args rest with
          | ok restEs => simp [hcc, hrc, hw]
          | typeError => simp [hcc, hrc, hw]
          | fuelOut => exact absurd hw ihrest
        | some p =>
          obtain ⟨cb, cs⟩ := p
          rw [hrc] at hcc
          obtain ⟨hfb, hfs⟩ := childContribution_rc level b s (extract_basename f).1
            (extract_basename f).2 rootPath fs args f es cb cs hcc
          have hne : ¬(cb = b ∧ (some cs : Option String) = s) := by
            rintro ⟨rfl, h2⟩
            exact hskip ⟨hfb, by rw [hfs]; exact h2⟩
          have hsub := hrec f (List.mem_cons_self _ _) cb cs
            (Prod.ext hfb hfs) hne
          cases hs2 : recurse cb cs with
          | fuelOut => exact absurd hs2 hsub
          | typeError => simp [hcc, hs2]
          | ok subEs =>
            cases hw : walkFiles recurse level b s rootPath fs args rest with
            | ok restEs => simp [hcc, hs2, hw]
            | typeError => simp [hcc, hs2, hw]
            | fuelOut => exact absurd hw ihrest

/-- C3 (amended): the walk terminates (returning entries or raising on a
malformed name) on every storage root whose suffixed-children relation
admits a strictly decreasing rank — in particular on every real layout,
where the flat→dark→zero chain strictly descends; but the code has no
depth cap, and on adversarial content with mutually-referencing master
products the recursion never returns (the counterexample). -/
theorem C3_amended_rank_termination (rootPath : List String) (fs : FS) (args : Args)
    (rank : String → Option String → Nat)
    (hrank : ∀ (b : String) (s : Option String) (d : List String) (f : String) (cb cs : String),
      find_processed_file_dir b s rootPath fs = some d → f ∈ globFits fs d →
      extract_basename f = (some cb, some cs) →
      ¬(cb = b ∧ (some cs : Option String) = s) →
      rank cb (some cs) < rank b s) :
    ∀ (fuel level : Nat) (b : String) (s : Option String), rank b s < fuel →
      find_calibration_files fuel level b s rootPath fs args ≠ .fuelOut := by
  intro fuel
  induction fuel with
  | zero => intro level b s h; exact absurd h (Nat.not_lt_zero _)
  | succ n ih =>
    intro level b s hlt
    simp only [find_calibration_files]
    cases hres : find_processed_file_dir b s rootPath fs with
    | none => simp
    | some d =>
      apply walkFiles_no_fuelOut
      intro f hf cb cs hparse hne
      apply ih (level + 1) cb (some cs)
      have := hrank b s d f cb cs hres hf hparse hne
      omega

/-- A single master-zero directory holding one raw zero: a well-founded
layout on which the amended termination theorem applies. -/
def fsOneZero : FS where
  listing d := if d = dZero then ["zb08c_0559_00005.fits"] else []
  isDir _ := false

/-- C3 witness: the walk returns without exhausting the budget on the
well-founded one-directory layout. -/
theorem C3_witness :
    find_calibration_files 1 0 "zb08c_0560_00004" (some "master_z") rootW fsOneZero argsOnlyRZ ≠
      .fuelOut := by
  have hrank : ∀ (b : String) (s : Option String) (d : List String) (f : String) (cb cs : String),
      find_processed_file_dir b s rootW fsOneZero = some d → f ∈ globFits fsOneZero d →
      extract_basename f = (some cb, some cs) →
      ¬(cb = b ∧ (some cs : Option String) = s) →
      (fun _ _ => 0 : String → Option String → Nat) cb (some cs) <
        (fun _ _ => 0 : String → Option String → Nat) b s := by
    intro b s d f cb cs hres hf hparse hne
    exfalso
    by_cases hd : d = dZero
    · subst hd
      rw [show globFits fsOneZero dZero = ["zb08c_0559_00005.fits"] from by decide] at hf
      simp only [List.mem_singleton] at hf
      subst hf
      rw [show extract_basename "zb08c_0559_00005.fits" = (some "zb08c_0559_00005", none)
        from by decide] at hparse
      simp at hparse
    · have hg : globFits fsOneZero d = [] := by
        simp [globFits, fsOneZero, hd]
      rw [hg] at hf
      simp at hf
  exact C3_amended_rank_termination rootW fsOneZero argsOnlyRZ (fun _ _ => 0) hrank 1 0
    "zb08c_0560_00004" (some "master_z") (by decide)

lemma takeWhile_replicate_append (n : Nat) (l : List Char)
    (h : match l with | c :: _ => c ≠ ' ' | [] => True) :
    (List.replicate n ' ' ++ l).takeWhile (fun c => c = ' ') = List.replicate n ' ' := by
  induction n with
  | zero =>
    simp only [List.replicate, List.nil_append]
    cases l with
    | nil => rfl
    | cons c t => simp [List.takeWhile_cons, h]
  | succ m ih =>
    simp [List.replicate_succ, List.takeWhile_cons, ih]

lemma countLeadingSpaces_render (n : Nat) (s : String) (h : headIsSpace s = false) :
    countLeadingSpaces (spacesOf n ++ s) = n := by
  obtain ⟨l⟩ := s
  unfold headIsSpace at h
  unfold countLeadingSpaces spacesOf
  have hd : ((⟨List.replicate n ' '⟩ : String) ++ ⟨l⟩).data = List.replicate n ' ' ++ l := rfl
  rw [hd, takeWhile_replicate_append]
  · exact List.length_replicate _ _
  · cases l with
    | nil => trivial
    | cons c t => simpa using h

lemma emit_line_indent (args : Args) (st : EmitState) (e : CalibEntry) (line : String)
    (st2 : EmitState) (hni : args.no_indent = false)
    (hh : headIsSpace (if args.names then lastComponent e.path else e.path) = false)
    (hemit : emit args st e = (some line, st2)) :
    countLeadingSpaces line = e.level := by
  have hr : renderLine args e.path e.level =
      spacesOf e.level ++ (if args.names then lastComponent e.path else e.path) := by
    unfold renderLine
    rw [hni]
    rfl
  unfold emit at hemit
  by_cases hsd : args.skip_duplicates
  · simp only [hsd, if_true] at hemit
    by_cases hk : dedupKey e.dbase e.dsuffix ∈ st.seen
    · rw [if_pos hk] at hemit
      simp at hemit
    · rw [if_neg hk] at hemit
      simp only [Prod.mk.injEq, Option.some.injEq] at hemit
      obtain ⟨hline, -⟩ := hemit
      rw [← hline, hr]
      exact countLeadingSpaces_render _ _ hh
  · simp only [hsd, if_false] at hemit
    simp only [Bool.not_eq_true] at hsd
    simp only [hsd, Bool.false_eq_true, if_false] at hemit
    simp only [Prod.mk.injEq, Option.some.injEq] at hemit
    obtain ⟨hline, -⟩ := hemit
    rw [← hline, hr]
    exact countLeadingSpaces_render _ _ hh

lemma childContribution_entries (level : Nat) (b : String) (ps fb fsuf : Option String)
    (rootPath : List String) (fs : FS) (args : Args) (f : String)
    (es : List CalibEntry) (rc : Option (String × String))
    (h : childContribution level b ps fb fsuf rootPath fs args f = some (es, rc)) :
    ∀ e ∈ es, e.level = level + 1 ∧ fb = some e.dbase ∧ fsuf = e.dsuffix := by
  cases fb with
  | none => simp [childContribution] at h
  | some cb =>
    cases fsuf with
    | none =>
      simp only [childContribution] at h
      split_ifs at h <;>
        · simp only [Option.some.injEq, Prod.mk.injEq] at h
          obtain ⟨h1, -⟩ := h
          subst h1
          intro e he
          first
          | (simp only [List.mem_singleton] at he; subst he; exact ⟨rfl, rfl, rfl⟩)
          | simp at he
    | some cs =>
      simp only [childContribution] at h
      split_ifs at h <;> (try split at h) <;>
        first
        | exact Option.noConfusion h
        | (simp only [Option.some.injEq, Prod.mk.injEq] at h
           obtain ⟨h1, -⟩ := h
           subst h1
           intro e he
           first
           | (simp only [List.mem_singleton] at he; subst he; exact ⟨rfl, rfl, rfl⟩)
           | simp at he)

lemma ReachIn.trans {fs : FS} {rootPath : List String} {x y z : String × Option String}
    {m n : Nat} (h1 : ReachIn fs rootPath x y m) (h2 : ReachIn fs rootPath y z n) :
    ReachIn fs rootPath x z (m + n) := by
  induction h2 with
  | refl => exact h1
  | step w _ hl ih => exact ReachIn.step w ih hl

lemma walk_entries_reach (recurse : String → String → WalkOut) (level : Nat) (b : String)
    (s : Option String) (rootPath : List String) (fs : FS) (args : Args) (d : List String)
    (hd : find_processed_file_dir b s rootPath fs = some d)
    (hrec : ∀ (cb cs : String) (l2 : List CalibEntry), recurse cb cs = .ok l2 →
      ∀ e ∈ l2, ∃ n, e.level = (level + 1) + n ∧
        ReachIn fs rootPath (cb, some cs) (e.dbase, e.dsuffix) n) :
    ∀ files : List String, (∀ f ∈ files, f ∈ globFits fs d) →
      ∀ l, walkFiles recurse level b s rootPath fs args files = .ok l →
      ∀ e ∈ l, ∃ n, e.level = level + n ∧
        ReachIn fs rootPath (b, s) (e.dbase, e.dsuffix) n := by
  intro files
  induction files with
  | nil =>
    intro _ l hw e he
    simp only [walkFiles, WalkOut.ok.injEq] at hw
    subst hw
    simp at he
  | cons f rest ih =>
    intro hsub l hw e he
    have hrestsub : ∀ g ∈ rest, g ∈ globFits fs d :=
      fun g hg => hsub g (List.mem_cons_of_mem _ hg)
    simp only [walkFiles] at hw
    by_cases hskip : (extract_basename f).1 = some b ∧ (extract_basename f).2 = s
    · rw [if_pos hskip] at hw
      exact ih hrestsub l hw e he
    · rw [if_neg hskip] at hw
      cases hcc : childContribution level b s (extract_basename f).1 (extract_basename f).2
          rootPath fs args f with
      | none => simp [hcc] at hw
      | some pr =>
        obtain ⟨es, rc⟩ := pr
        simp only [hcc] at hw
        have hesfact := childContribution_entries level b s (extract_basename f).1
          (extract_basename f).2 rootPath fs args f es rc hcc
        have heslisted : ∀ x ∈ es, ∃ n, x.level = level + n ∧
            ReachIn fs rootPath (b, s) (x.dbase, x.dsuffix) n := by
          intro x hx
          obtain ⟨hl, hb, hs2⟩ := hesfact x hx
          refine ⟨1, by omega, ?_⟩
          refine ReachIn.step _ (ReachIn.refl _) ⟨d, f, hd, hsub f (List.mem_cons_self _ _), ?_⟩
          have : extract_basename f = ((extract_basename f).1, (extract_basename f).2) := rfl
          rw [this, ← hb, ← hs2]
        cases rc with
        | none =>
          cases hwr : walkFiles recurse level b s rootPath fs args rest with
          | typeError => simp [hwr] at hw
          | fuelOut => simp [hwr] at hw
          | ok restEs =>
            simp only [hwr, WalkOut.ok.injEq] at hw
            subst hw
            rcases List.mem_append.mp he with he2 | he2
            · rcases List.mem_append.mp he2 with he3 | he3
              · exact heslisted e he3
              · simp at he3
            · exact ih hrestsub restEs hwr e he2
        | some p =>
          obtain ⟨cb, cs⟩ := p
          obtain ⟨hfb, hfs⟩ := childContribution_rc level b s (extract_basename f).1
            (extract_basename f).2 rootPath fs args f es cb cs hcc
          have hlisted1 : ReachIn fs rootPath (b, s) (cb, some cs) 1 := by
            refine ReachIn.step _ (ReachIn.refl _) ⟨d, f, hd, hsub f (List.mem_cons_self _ _), ?_⟩
            have : extract_basename f = ((extract_basename f).1, (extract_basename f).2) := rfl
            rw [this, hfb, hfs]
          cases hs2 : recurse cb cs with
          | typeError => simp [hs2] at hw
          | fuelOut => simp [hs2] at hw
          | ok subEs =>
            simp only [hs2] at hw
            cases hwr : walkFiles recurse level b s rootPath fs args rest with
            | typeError => simp [hwr] at hw
            | fuelOut => simp [hwr] at hw
            | ok restEs =>
              simp only [hwr, WalkOut.ok.injEq] at hw
              subst hw
              rcases List.mem_append.mp he with he2 | he2
              · rcases List.mem_append.mp he2 with he3 | he3
                · exact heslisted e he3
                · obtain ⟨n2, hn2, hr2⟩ := hrec cb cs subEs hs2 e he3
                  exact ⟨1 + n2, by omega, ReachIn.trans hlisted1 hr2⟩
              · exact ih hrestsub restEs hwr e he2

lemma find_entries_reach : ∀ (fuel level : Nat) (b : String) (s : Option String)
    (rootPath : List String) (fs : FS) (args : Args) (l : List CalibEntry),
    find_calibration_files fuel level b s rootPath fs args = .ok l →
    ∀ e ∈ l, ∃ n, e.level = level + n ∧
      ReachIn fs rootPath (b, s) (e.dbase, e.dsuffix) n := by
  intro fuel
  induction fuel with
  | zero => intro level b s rootPath fs args l h; simp [find_calibration_files] at h
  | succ m ih =>
    intro level b s rootPath fs args l h
    simp only [find_calibration_files] at h
    cases hres : find_processed_file_dir b s rootPath fs with
    | none =>
      simp only [hres, WalkOut.ok.injEq] at h
      subst h
      intro e he
      simp at he
    | some d =>
      simp only [hres] at h
      exact walk_entries_reach _ level b s rootPath fs args d hres
        (fun cb cs l2 h2 => ih (level + 1) cb (some cs) rootPath fs args l2 h2)
        (globFits fs d) (fun f hf => hf) l h

/-- C5: (emitter) a printed line carries exactly one leading space per
recorded depth unit — for every deduplication state, so suppression of
other nodes cannot change it — whenever indentation is on and the
rendered path contributes no leading space of its own; and (walker) the
depth recorded on every returned node equals a number of dependency hops
from the requesting root to that node through the listed directories. -/
theorem C5_depth_and_indent :
    (∀ (args : Args) (st : EmitState) (e : CalibEntry) (line : String) (st2 : EmitState),
      args.no_indent = false →
      headIsSpace (if args.names then lastComponent e.path else e.path) = false →
      emit args st e = (some line, st2) →
      countLeadingSpaces line = e.level)
    ∧ (∀ (fuel : Nat) (b : String) (s : Option String) (rootPath : List String) (fs : FS)
        (args : Args) (l : List CalibEntry) (e : CalibEntry),
      find_calibration_files fuel 0 b s rootPath fs args = .ok l → e ∈ l →
      ∃ n, e.level = n ∧ ReachIn fs rootPath (b, s) (e.dbase, e.dsuffix) n) := by
  refine ⟨emit_line_indent, fun fuel b s rootPath fs args l e h he => ?_⟩
  obtain ⟨n, h1, h2⟩ := find_entries_reach fuel 0 b s rootPath fs args l h e he
  exact ⟨n, by omega, h2⟩

/-- C5 witness: a depth-2 node prints with two leading spaces whatever
the dedup state holds, and the master zero of the synthetic chain is
returned with depth 3, the length of its discovery chain. -/
theorem C5_witness :
    countLeadingSpaces "  /data/fits/zb08/raw/0559/zb08c_0559_00005.fits" = 2
    ∧ ∃ n, mzEntry.level = n ∧
        ReachIn fsChain rootW ("zb08c_0571_00001", some "zdf")
          (mzEntry.dbase, mzEntry.dsuffix) n :=
  ⟨C5_depth_and_indent.1 argsNone ⟨["k1", "k2"], 5⟩
      ⟨"/data/fits/zb08/raw/0559/zb08c_0559_00005.fits", 2, "raw_zero", "zb08c_0559_00005", none⟩
      "  /data/fits/zb08/raw/0559/zb08c_0559_00005.fits" ⟨["k1", "k2"], 5⟩
      rfl (by decide) (by decide),
   C5_depth_and_indent.2 4 "zb08c_0571_00001" (some "zdf") rootW fsChain argsOnlyMZ
      [mzEntry] mzEntry (by decide) (by simp)⟩

/-- C1: for every discovered child that carries a kind (per the
containment rule for raw files), the loop body emits a node for it iff
that kind's flag is requested, the emitted node carries that kind, and
it recurses into the child iff one of the kinds reachable below it in
the dependency DAG is requested — `master_zero` on `raw_zero`;
`master_dark` on `master_zero`/`raw_zero`/`raw_dark`; `master_flat` on
`master_dark`/`master_zero`/`raw_zero`/`raw_dark`/`raw_flat`; raw kinds
are leaves, never recursed into. -/
theorem C1_emit_and_recurse_policy (level : Nat) (b : String) (ps fb fsuf : Option String)
    (rootPath : List String) (fs : FS) (args : Args) (f : String) (k : CalKind)
    (es : List CalibEntry) (rc : Option (String × String))
    (hk : childKindOf ps fsuf = some k)
    (h : childContribution level b ps fb fsuf rootPath fs args f = some (es, rc)) :
    (es ≠ [] ↔ requestedFlag args k = true)
    ∧ rc.isSome = recurseFlag args k
    ∧ (∀ e ∈ es, e.kind = kindName k) := by
  cases fb with
  | none => simp [childContribution] at h
  | some cb =>
    cases fsuf with
    | some cs =>
      simp only [childKindOf] at hk
      simp only [childContribution] at h
      split_ifs at hk h <;>
        (try split at h) <;>
        first
        | exact Option.noConfusion h
        | exact Option.noConfusion hk
        | (injection hk with hk2
           subst hk2
           simp only [Option.some.injEq, Prod.mk.injEq] at h
           obtain ⟨hes, hrc⟩ := h
           subst hes
           subst hrc
           refine ⟨?_, ?_, ?_⟩ <;> simp_all [requestedFlag, recurseFlag, kindName])
    | none =>
      cases ps with
      | none => simp [childKindOf] at hk
      | some s =>
        simp only [childKindOf] at hk
        simp only [childContribution] at h
        by_cases hs1 : s = "master_z"
        · subst hs1
          rw [if_pos rfl] at hk
          injection hk with hk2
          subst hk2
          simp only [reduceIte] at h
          simp only [Option.some.injEq, Prod.mk.injEq] at h
          obtain ⟨hes, hrc⟩ := h
          subst hes
          subst hrc
          refine ⟨?_, ?_, ?_⟩ <;>
            cases hrz : args.raw_zero <;> simp_all [requestedFlag, recurseFlag, kindName]
        · by_cases hs2 : s = "master_d"
          · subst hs2
            rw [if_neg hs1, if_pos rfl] at hk
            injection hk with hk2
            subst hk2
            have hp1 : ¬((some "master_d" : Option String) = some "master_z") := by decide
            rw [if_neg hp1, if_pos rfl] at h
            simp only [Option.some.injEq, Prod.mk.injEq] at h
            obtain ⟨hes, hrc⟩ := h
            subst hes
            subst hrc
            refine ⟨?_, ?_, ?_⟩ <;>
              cases hrd : args.raw_dark <;> simp_all [requestedFlag, recurseFlag, kindName]
          · by_cases hs3 : strStartsWith s "master_f_"
            · rw [if_neg hs1, if_neg hs2, if_pos hs3] at hk
              injection hk with hk2
              subst hk2
              have hs0 : s ≠ "" := by
                intro hempty
                rw [hempty] at hs3
                exact absurd hs3 (by decide)
              have hp1 : ¬((some s : Option String) = some "master_z") := by simpa using hs1
              have hp2 : ¬((some s : Option String) = some "master_d") := by simpa using hs2
              have hcond : (s != "" && strStartsWith s "master_f_") = true := by
                simp [bne_iff_ne, hs0, hs3]
              rw [if_neg hp1, if_neg hp2, if_pos hcond] at h
              simp only [Option.some.injEq, Prod.mk.injEq] at h
              obtain ⟨hes, hrc⟩ := h
              subst hes
              subst hrc
              refine ⟨?_, ?_, ?_⟩ <;>
                cases hrf : args.raw_flat <;> simp_all [requestedFlag, recurseFlag, kindName]
            · rw [if_neg hs1, if_neg hs2, if_neg hs3] at hk
              exact Option.noConfusion hk

/-- C1 witness: a master-zero child under a science parent with only
`--master-zero` requested is emitted once (as a `master_zero` node) and
not recursed into. -/
theorem C1_witness :
    (([(⟨"/data/fits/zb08/processed-ofp/zeros/zb08c_0560_00004/zb08c_0560_00004_master_z.fits",
        1, "master_zero", "zb08c_0560_00004", some "master_z"⟩ : CalibEntry)] ≠ []) ↔
      requestedFlag argsOnlyMZ .master_zero = true)
    ∧ (none : Option (String × String)).isSome = recurseFlag argsOnlyMZ .master_zero
    ∧ (∀ e ∈ [(⟨"/data/fits/zb08/processed-ofp/zeros/zb08c_0560_00004/zb08c_0560_00004_master_z.fits",
        1, "master_zero", "zb08c_0560_00004", some "master_z"⟩ : CalibEntry)],
        e.kind = kindName .master_zero) :=
  C1_emit_and_recurse_policy 0 "zb08c_0571_00001" (some "zdf") (some "zb08c_0560_00004")
    (some "master_z") rootW fsChain argsOnlyMZ "zb08c_0560_00004_master_z.fits" .master_zero
    _ none (by decide) (by decide)

end OcaSpec
